import Mathlib

/-!
Verification development for the gonil nil-pointer-dereference analyzer
(`src/main.go`).  The symbolic evaluator of `main.go` is shallowly embedded:
SSA values are entries of a global instruction table indexed by `Nat`, Go's
`phi` (`[]*value`) becomes `List Value` with the empty list standing for the
nil slice ("no information"), the per-frame memo map `frame.env` is an
association list threaded through evaluation, the mutable fault sink
`checker.npds` becomes an explicitly returned list of traces, and the Go
runtime panics the evaluator can hit (slice index out of range, the
`panic("unreachable")` in the terminator switch) become the error side of an
`Except`.  Interprocedural recursion has no cycle guard in the source, so
evaluation is indexed by fuel; running out of fuel is a separate, artificial
error value `Panic.noFuel`.

Traces appear twice: the evaluator below records each trace's contents as
of the moment it is appended (a persistent list), and a second evaluator,
suffixed `S`, keeps traces as real Go slices over a store of backing
arrays, reproducing the in-place mutation of already-stored sink entries
that `append`'s aliasing causes at call depth 3 and beyond.

Instruction kinds not exercised by any claim (`ssa.Extract`, `ssa.Lookup`,
`ssa.MakeClosure` used as a value, `ssa.Phi`, ...) are collapsed into
`Instr.other`, which evaluates exactly like an unmatched case of the Go
`switch` in `frame.symEval`: it produces the nil abstract state and caches it.
-/

namespace Gonil

/-- Go `value` (main.go line 118): one alternative of an abstract state.
`zero` is the `zero` field ("this value is the zero value"), `toZero` is the
`toZero` field ("this pointer certainly points at a zero value"). -/
structure Value where
  zero : Bool := false
  toZero : Bool := false
deriving DecidableEq, Repr

/-- Go `phi` (main.go line 128): a disjunction of alternatives.  The empty
list plays the role of the nil slice, "no information". -/
abbrev Phi := List Value

/-- Go `trace` (main.go line 116): the instructions are recorded by their
ids in the instruction table. -/
abbrev Trace := List Nat

/-- Go `frame.env`: the per-frame memo map from a value to its computed
abstract state, as an association list where the most recent write shadows. -/
abbrev Env := List (Nat × Phi)

/-- The `go/types` shapes the analyzer distinguishes; only used by the
`Alloc` claim (the code itself ignores the allocated type). -/
inductive GoType where
  | intT
  | boolT
  | stringT
  | structT
  | ptr (elem : GoType)
  | mapT (elem : GoType)
  | chanT
  | sliceT
deriving DecidableEq, Repr

/-- The binary operators of the `ssa.BinOp` switch in `frame.symEval`
(main.go lines 159-197). -/
inductive BinOpKind where
  | add | sub | mul | quo | rem
  | and | or | xor | andNot | shl | shr
  | eql | neq | lss | leq | gtr | geq
deriving DecidableEq, Repr

/-- The unary operators of the `ssa.UnOp` switch: `token.MUL` (pointer load)
versus everything else (the `default: return nil // TODO` branch). -/
inductive UnOpKind where
  | deref
  | otherUnOp
deriving DecidableEq, Repr

/-- The constants `frame.symEval` distinguishes in its `ssa.Const` case:
nil constants, then scalar kinds whose zero flag comes from the literal. -/
inductive ConstVal where
  | nilC
  | boolC (b : Bool)
  | intC (n : Int)
  | stringC (s : String)
deriving DecidableEq, Repr

/-- The shapes of `call.Common().Value` that `frame.symEvalCall`
distinguishes (main.go lines 331-343), plus the invoke mode. -/
inductive Callee where
  | invoke
  | function (f : Nat)
  | closure (f : Nat) (bindings : List Nat)
  | dynamic (v : Nat)
deriving DecidableEq, Repr

/-- The SSA instruction/value kinds of `frame.symEval` and
`frame.symEvalBlock`.  A value id names an entry of the program's
instruction table.  `ifTerm`/`jump` carry successor block indices (the
encoding of `block.Succs`). -/
inductive Instr where
  | alloc (t : GoType)
  | binop (op : BinOpKind) (x y : Nat)
  | call (c : Callee) (args : List Nat)
  | constI (c : ConstVal)
  | fieldAddr (x : Nat)
  | global
  | param
  | unop (op : UnOpKind) (x : Nat)
  | ifTerm (cond : Nat) (tbr fbr : Nat)
  | jump (target : Nat)
  | panicTerm
  | retTerm (results : List Nat)
  | other
deriving DecidableEq, Repr

/-- A function: its formal parameter value ids (`fn.Params`) and its basic
blocks (`fn.Blocks`); an external function has no blocks. -/
structure Block where
  instrs : List Nat
deriving DecidableEq, Repr

structure Func where
  params : List Nat
  blocks : List Block
deriving DecidableEq, Repr

/-- A whole program: the global instruction table and the function table. -/
structure Program where
  vals : List Instr
  funcs : List Func
deriving DecidableEq, Repr

/-- Go `frame` (main.go line 130) minus the checker reference: the function
being evaluated, the bound actual arguments (`none` for a context-free seed,
Go's nil slice), and the accumulated call trace. -/
structure Frame where
  fn : Func
  args : Option (List Nat)
  tr : Trace
deriving DecidableEq, Repr

/-- The runtime panics the evaluator can actually hit, plus the artificial
fuel-exhaustion marker of the embedding. -/
inductive Panic where
  | idxOOB
  | unreachableTerm
  | noFuel
deriving DecidableEq, Repr

/-- Equality of evaluation results is decidable; spelling the instance out
keeps `decide` usable on concrete runs of the evaluator. -/
def exceptDecEq {ε α : Type} [DecidableEq ε] [DecidableEq α] :
    DecidableEq (Except ε α) := fun a b =>
  match a, b with
  | .error e, .error f =>
    if h : e = f then .isTrue (congrArg _ h)
    else .isFalse (fun hc => h (Except.error.inj hc))
  | .error _, .ok _ => .isFalse (fun hc => Except.noConfusion hc)
  | .ok _, .error _ => .isFalse (fun hc => Except.noConfusion hc)
  | .ok x, .ok y =>
    if h : x = y then .isTrue (congrArg _ h)
    else .isFalse (fun hc => h (Except.ok.inj hc))

instance : DecidableEq (Except Panic (Phi × Env × List Trace)) := exceptDecEq

instance : DecidableEq (Except Panic (Env × List Trace)) := exceptDecEq

instance : DecidableEq (Except Panic (List Trace)) := exceptDecEq

def envInsert (env : Env) (v : Nat) (p : Phi) : Env := (v, p) :: env

def envLookup (env : Env) (v : Nat) : Option Phi :=
  (env.find? (fun e => e.1 == v)).map (fun e => e.2)

/-- Go `addEdge` (main.go line 432): a non-zero edge unless the value is
guaranteed zero, then always a zero edge. -/
def addEdge (guaranteedZero : Bool) : Phi :=
  (if guaranteedZero then [] else [⟨false, false⟩]) ++ [⟨true, false⟩]

/-- The per-pair body of the `ssa.BinOp` loop in `frame.symEval` (main.go
lines 156-198): given one alternative of each operand, the alternatives
contributed to the result. -/
def binOpPair (op : BinOpKind) (x y : Value) : Phi :=
  match op with
  | .add | .sub => addEdge (x.zero && y.zero)
  | .mul => addEdge (x.zero || y.zero)
  | .quo | .rem => addEdge x.zero
  | .and | .or | .xor | .andNot => addEdge (x.zero && y.zero)
  | .shl | .shr => addEdge x.zero
  | .eql | .leq | .geq =>
    if x.zero && y.zero then [⟨false, false⟩]
    else if x.zero != y.zero then [⟨true, false⟩]
    else [⟨false, false⟩, ⟨true, false⟩]
  | .neq =>
    if x.zero && y.zero then [⟨true, false⟩]
    else if x.zero != y.zero then [⟨false, false⟩]
    else [⟨false, false⟩, ⟨true, false⟩]
  | .lss | .gtr => [⟨false, false⟩, ⟨true, false⟩]

/-- The `ssa.FieldAddr` loop of `frame.symEval` (main.go lines 227-237):
walks the base alternatives, reporting for each known-zero one and
otherwise contributing a certainly-zero-field edge plus, unless the base
alternative itself certainly pointed at a zero value, a possibly-non-zero
edge.  Returns (edges, reported traces); `tr ++ [vid]` is each reported
trace's content as of the moment of the report — the in-place mutation that
`append(fr.tr, instr)` can later inflict on sink entries through the shared
backing array is modeled separately by `fieldAddrEdgesS` below. -/
def fieldAddrEdges (tr : Trace) (vid : Nat) : Phi → Phi × List Trace
  | [] => ([], [])
  | x :: rest =>
    let (r, t) := fieldAddrEdges tr vid rest
    if x.zero then (r, (tr ++ [vid]) :: t)
    else ((⟨false, true⟩ :: (if x.toZero then [] else [⟨false, false⟩])) ++ r, t)

/-- The `token.MUL` loop of the `ssa.UnOp` case of `frame.symEval`
(main.go lines 278-289): reports for known-zero pointers; a non-zero
pointer contributes a zero edge and, when its `toZero` flag is unset, a
second (also zero-flagged) edge, exactly as the source does.  The reported
traces are report-time contents; the slice-aliasing semantics of the sink
is modeled by `unOpEdgesS` below. -/
def unOpEdges (tr : Trace) (vid : Nat) : Phi → Phi × List Trace
  | [] => ([], [])
  | x :: rest =>
    let (r, t) := unOpEdges tr vid rest
    if x.zero then (r, (tr ++ [vid]) :: t)
    else ((⟨true, false⟩ :: (if x.toZero then [] else [⟨true, false⟩])) ++ r, t)

/-- The zero flag of the `ssa.Const` case of `frame.symEval` (main.go lines
201-219). -/
def constPhi (c : ConstVal) : Phi :=
  match c with
  | .nilC => [⟨true, false⟩]
  | .boolC b => [⟨!b, false⟩]
  | .intC n => [⟨n == 0, false⟩]
  | .stringC s => [⟨s == "", false⟩]

mutual

/-- Go `frame.get` (main.go line 142): consult the per-frame memo first. -/
def frameGet : Nat → Program → Frame → Env → Nat → Except Panic (Phi × Env × List Trace)
  | 0, _, _, _, _ => .error .noFuel
  | fuel + 1, prog, fr, env, v =>
    match envLookup env v with
    | some edges => .ok (edges, env, [])
    | none => symEval fuel prog fr env v

termination_by structural fuel => fuel

/-- Go `frame.symEval` (main.go line 149).  Returns the abstract state, the
updated frame memo, and the faults reported while evaluating. -/
def symEval : Nat → Program → Frame → Env → Nat → Except Panic (Phi × Env × List Trace)
  | 0, _, _, _, _ => .error .noFuel
  | fuel + 1, prog, fr, env, v =>
    match prog.vals[v]? with
    | some (.alloc _) =>
      -- ret = []*value{{val, false, true}}
      .ok ([⟨false, true⟩], envInsert env v [⟨false, true⟩], [])
    | some (.binop op x y) => do
      let (xx, env1, f1) ← frameGet fuel prog fr env x
      let (yy, env2, f2) ← frameGet fuel prog fr env1 y
      -- for i, x := range xx { y := yy[i]; ... } panics when yy is shorter
      if xx.length ≤ yy.length then
        let ret := (xx.zip yy).flatMap (fun p => binOpPair op p.1 p.2)
        .ok (ret, envInsert env2 v ret, f1 ++ f2)
      else .error .idxOOB
    | some (.call c args) => do
      let (ret, env1, fs) ← symEvalCall fuel prog fr env v c args 0
      .ok (ret, envInsert env1 v ret, fs)
    | some (.constI c) =>
      .ok (constPhi c, envInsert env v (constPhi c), [])
    | some (.fieldAddr x) => do
      let (xx, env1, f1) ← frameGet fuel prog fr env x
      if xx.isEmpty then .ok ([], env1, f1)  -- early return, no memo write
      else
        let (ret, reps) := fieldAddrEdges fr.tr v xx
        .ok (ret, envInsert env1 v ret, f1 ++ reps)
    | some .global => .ok ([], env, [])  -- early return, no memo write
    | some .param =>
      match fr.args with
      | none => .ok ([], env, [])  -- context-free seed: early return
      | some args =>
        match fr.fn.params.findIdx? (fun p => p == v) with
        | none =>
          -- arg stays the nil ssa.Value; fr.get of it yields no information
          .ok ([], envInsert env v [], [])
        | some i =>
          match args[i]? with
          | none => .error .idxOOB  -- fr.args[i] out of range
          | some a => do
            let (ret, env1, f1) ← frameGet fuel prog fr env a
            .ok (ret, envInsert env1 v ret, f1)
    | some (.unop op x) => do
      let (xx, env1, f1) ← frameGet fuel prog fr env x
      if xx.isEmpty then .ok ([], env1, f1)  -- early return, no memo write
      else
        match op with
        | .deref =>
          let (ret, reps) := unOpEdges fr.tr v xx
          .ok (ret, envInsert env1 v ret, f1 ++ reps)
        | .otherUnOp => .ok ([], env1, f1)  -- default: return nil // TODO
    | some (.ifTerm _ _ _) | some (.jump _) | some .panicTerm
    | some (.retTerm _) | some .other | none =>
      -- an unmatched switch case falls through with ret == nil and still
      -- writes the memo entry
      .ok ([], envInsert env v [], [])

termination_by structural fuel => fuel

/-- Go `frame.symEvalCall` (main.go line 331).  `callId` is the id of the
call instruction itself (used for the trace). -/
def symEvalCall : Nat → Program → Frame → Env → Nat → Callee → List Nat → Nat →
    Except Panic (Phi × Env × List Trace)
  | 0, _, _, _, _, _, _, _ => .error .noFuel
  | fuel + 1, prog, fr, env, callId, c, args, res =>
    match c with
    | .invoke => .ok ([], env, [])  -- call to an interface method
    | .function f => symEvalFunc fuel prog fr env (some callId) f (some args) res
    | .closure f bindings => symEvalFunc fuel prog fr env (some callId) f (some bindings) res
    | .dynamic fv => symEval fuel prog fr env fv

termination_by structural fuel => fuel

/-- Go `frame.symEvalFunc` (main.go line 345): push the call instruction on
the trace, bind the arguments in a fresh frame with a fresh memo, and
evaluate the entry block.  The caller's memo is untouched.  `fr.tr ++ [cid]`
is the pushed trace's content at push time; the in-place write that
`tr = append(fr.tr, call)` performs when `fr.tr` has spare capacity —
which can overwrite the last element of a sink entry reported earlier from
the same frame — is modeled separately by `symEvalFuncS` below. -/
def symEvalFunc : Nat → Program → Frame → Env → Option Nat → Nat → Option (List Nat) → Nat →
    Except Panic (Phi × Env × List Trace)
  | 0, _, _, _, _, _, _, _ => .error .noFuel
  | fuel + 1, prog, fr, env, call, f, args, res =>
    match prog.funcs[f]? with
    | none => .ok ([], env, [])
    | some fn =>
      match fn.blocks.head? with
      | none => .ok ([], env, [])  -- external function: no source code
      | some entry => do
        let tr := match call with
          | some cid => fr.tr ++ [cid]
          | none => fr.tr
        let (ret, _, fs) ← symEvalBlock fuel prog ⟨fn, args, tr⟩ [] entry res
        .ok (ret, env, fs)

termination_by structural fuel => fuel

/-- The successor recursion `fr.symEvalBlock(block.Succs[i], res)`: the
successor index resolves inside the current frame's function. -/
def evalSuccessor : Nat → Program → Frame → Env → Nat → Nat →
    Except Panic (Phi × Env × List Trace)
  | 0, _, _, _, _, _ => .error .noFuel
  | fuel + 1, prog, fr, env, bidx, res =>
    match fr.fn.blocks[bidx]? with
    | some bb => symEvalBlock fuel prog fr env bb res
    | none => .ok ([], env, [])

termination_by structural fuel => fuel

/-- The instruction walk of `frame.symEvalBlock` (main.go lines 361-395):
every `ssa.FieldAddr` is evaluated directly (bypassing the memo read), and
every call with a statically known function or closure is re-entered via
`symEvalFunc` for result index 0; everything else is skipped. -/
def walkInstrs : Nat → Program → Frame → Env → List Nat → Except Panic (Env × List Trace)
  | 0, _, _, _, _ => .error .noFuel
  | _ + 1, _, _, env, [] => .ok (env, [])
  | fuel + 1, prog, fr, env, id :: rest =>
    match prog.vals[id]? with
    | some (.fieldAddr _) => do
      let (_, env1, f1) ← symEval fuel prog fr env id
      let (env2, f2) ← walkInstrs fuel prog fr env1 rest
      .ok (env2, f1 ++ f2)
    | some (.call c args) =>
      match c with
      | .function f => do
        let (_, env1, f1) ← symEvalFunc fuel prog fr env (some id) f (some args) 0
        let (env2, f2) ← walkInstrs fuel prog fr env1 rest
        .ok (env2, f1 ++ f2)
      | .closure f bindings => do
        let (_, env1, f1) ← symEvalFunc fuel prog fr env (some id) f (some bindings) 0
        let (env2, f2) ← walkInstrs fuel prog fr env1 rest
        .ok (env2, f1 ++ f2)
      | _ => walkInstrs fuel prog fr env rest
    | _ => walkInstrs fuel prog fr env rest

termination_by structural fuel => fuel

/-- Go `frame.symEvalBlock` (main.go line 357): empty blocks are
unreachable; otherwise walk the instructions for their fault side effects,
then dispatch on the terminator, panicking on an unrecognized one. -/
def symEvalBlock : Nat → Program → Frame → Env → Block → Nat →
    Except Panic (Phi × Env × List Trace)
  | 0, _, _, _, _, _ => .error .noFuel
  | fuel + 1, prog, fr, env, b, res =>
    match b.instrs.getLast? with
    | none => .ok ([], env, [])  -- block is unreachable
    | some tid => do
      let (env1, fs1) ← walkInstrs fuel prog fr env b.instrs
      match prog.vals[tid]? with
      | some (.ifTerm c tbr fbr) => do
        let (cond, env2, fs2) ← symEval fuel prog fr env1 c
        if cond.isEmpty then .ok ([], env2, fs1 ++ fs2)
        else
          let tru := cond.any (fun x => !x.zero)
          let fals := cond.any (fun x => x.zero)
          do
            let (r1, env3, fs3) ←
              if tru then evalSuccessor fuel prog fr env2 tbr res
              else .ok ([], env2, [])
            let (r2, env4, fs4) ←
              if fals then evalSuccessor fuel prog fr env3 fbr res
              else .ok ([], env3, [])
            .ok (r1 ++ r2, env4, fs1 ++ fs2 ++ fs3 ++ fs4)
      | some (.jump t) => do
        let (r, env2, fs2) ← evalSuccessor fuel prog fr env1 t res
        .ok (r, env2, fs1 ++ fs2)
      | some .panicTerm => .ok ([], env1, fs1)
      | some (.retTerm results) =>
        match results with
        | [] => .ok ([], env1, fs1)
        | _ =>
          match results[res]? with
          | some rid => do
            let (r, env2, fs2) ← symEval fuel prog fr env1 rid
            .ok (r, env2, fs1 ++ fs2)
          | none => .error .idxOOB  -- ctrl.Results[res] out of range
      | _ => .error .unreachableTerm  -- default: panic("unreachable")


termination_by structural fuel => fuel
end

/-- The context-free frame the driver seeds every function with
(`&frame{checker: c}` in `check`, main.go line 77). -/
def seedFrame : Frame := ⟨⟨[], []⟩, none, []⟩

/-- The driver loop of `check` (main.go lines 78-80) over an explicit
iteration order of the function table (Go ranges over a map, so the order
is arbitrary); faults accumulate across seeds. -/
def checkRun (fuel : Nat) (prog : Program) : List Nat → Except Panic (List Trace)
  | [] => .ok []
  | f :: rest => do
    let (_, _, fs) ← symEvalFunc fuel prog seedFrame [] none f none 0
    let rest' ← checkRun fuel prog rest
    .ok (fs ++ rest')

/-- `check` with the canonical iteration order. -/
def analyze (fuel : Nat) (prog : Program) : Except Panic (List Trace) :=
  checkRun fuel prog (List.range prog.funcs.length)

/-- The faults one seed contributes (empty if that seed panics). -/
def seedFaults (fuel : Nat) (prog : Program) (f : Nat) : List Trace :=
  match symEvalFunc fuel prog seedFrame [] none f none 0 with
  | .ok out => out.2.2
  | .error _ => []

/-! ## Go slice semantics for traces

The evaluator above records each trace's contents as of the moment of the
report: `tr ++ [vid]` is exactly what `append(fr.tr, instr)` holds when the
report happens.  But Go's `append` aliases: the sink entry made in
`checker.report` (main.go line 90) and the call push in `frame.symEvalFunc`
(line 351) write through `fr.tr`'s backing array whenever it has spare
capacity, so a later append from the same frame mutates traces already
stored in the sink.  The definitions below model the trace slices exactly:
a slice is a view (backing-array id, length, capacity) into a store of
backing arrays, `sliceAppend` writes in place when capacity allows and
otherwise reallocates with Go's doubling rule (caps grow 0, 1, 2, 4, ...),
and the sink's traces are resolved against the final store, as `main`'s
printing loop does after `check` returns. -/

/-- A Go slice of instructions: a view into a backing array. -/
structure GoSlice where
  arr : Nat := 0
  len : Nat := 0
  cap : Nat := 0
deriving DecidableEq, Repr

/-- The backing arrays, indexed by id; each list is one array, kept at its
capacity (unused slots hold 0, never read). -/
abbrev Store := List (List Nat)

/-- Go's capacity growth for a one-element append to a full small slice. -/
def growCap (c : Nat) : Nat := if c = 0 then 1 else 2 * c

/-- Go `append(s, x)` for a single element: write in place when the slice
has spare capacity (mutating every alias), otherwise allocate a fresh
backing array of doubled capacity. -/
def sliceAppend (st : Store) (s : GoSlice) (x : Nat) : Store × GoSlice :=
  if s.len < s.cap then
    (st.set s.arr ((st.getD s.arr []).set s.len x), ⟨s.arr, s.len + 1, s.cap⟩)
  else
    let newcap := growCap s.cap
    ((st ++ [(st.getD s.arr []).take s.len ++ [x] ++
        List.replicate (newcap - (s.len + 1)) 0]),
      ⟨st.length, s.len + 1, newcap⟩)

/-- Reading a slice's contents out of the store. -/
def readSlice (st : Store) (s : GoSlice) : List Nat := (st.getD s.arr []).take s.len

/-- `frame` with its trace kept as a real Go slice. -/
structure SFrame where
  fn : Func
  args : Option (List Nat)
  tr : GoSlice
deriving DecidableEq, Repr

/-- The `ssa.FieldAddr` loop with slice-faithful reporting: each report
appends the fault instruction to the frame's trace slice — in place when
there is spare capacity — and stores the resulting slice in the sink. -/
def fieldAddrEdgesS (st : Store) (tr : GoSlice) (vid : Nat) :
    Phi → Store × Phi × List GoSlice
  | [] => (st, [], [])
  | x :: rest =>
    if x.zero then
      let p1 := sliceAppend st tr vid
      let p2 := fieldAddrEdgesS p1.1 tr vid rest
      (p2.1, p2.2.1, p1.2 :: p2.2.2)
    else
      let p2 := fieldAddrEdgesS st tr vid rest
      (p2.1, (⟨false, true⟩ :: (if x.toZero then [] else [⟨false, false⟩])) ++ p2.2.1,
        p2.2.2)

/-- The `token.MUL` loop with slice-faithful reporting. -/
def unOpEdgesS (st : Store) (tr : GoSlice) (vid : Nat) :
    Phi → Store × Phi × List GoSlice
  | [] => (st, [], [])
  | x :: rest =>
    if x.zero then
      let p1 := sliceAppend st tr vid
      let p2 := unOpEdgesS p1.1 tr vid rest
      (p2.1, p2.2.1, p1.2 :: p2.2.2)
    else
      let p2 := unOpEdgesS st tr vid rest
      (p2.1, (⟨true, false⟩ :: (if x.toZero then [] else [⟨true, false⟩])) ++ p2.2.1,
        p2.2.2)

mutual

/-- `frame.get` over the slice-faithful trace model.  The evaluation logic
is identical to `frameGet`; only the trace bookkeeping differs. -/
def frameGetS : Nat → Program → SFrame → Env → Store → Nat →
    Except Panic (Phi × Env × Store × List GoSlice)
  | 0, _, _, _, _, _ => .error .noFuel
  | fuel + 1, prog, fr, env, st, v =>
    match envLookup env v with
    | some edges => .ok (edges, env, st, [])
    | none => symEvalS fuel prog fr env st v

termination_by structural fuel => fuel

/-- `frame.symEval` over the slice-faithful trace model. -/
def symEvalS : Nat → Program → SFrame → Env → Store → Nat →
    Except Panic (Phi × Env × Store × List GoSlice)
  | 0, _, _, _, _, _ => .error .noFuel
  | fuel + 1, prog, fr, env, st, v =>
    match prog.vals[v]? with
    | some (.alloc _) =>
      .ok ([⟨false, true⟩], envInsert env v [⟨false, true⟩], st, [])
    | some (.binop op x y) => do
      let (xx, env1, st1, f1) ← frameGetS fuel prog fr env st x
      let (yy, env2, st2, f2) ← frameGetS fuel prog fr env1 st1 y
      if xx.length ≤ yy.length then
        let ret := (xx.zip yy).flatMap (fun p => binOpPair op p.1 p.2)
        .ok (ret, envInsert env2 v ret, st2, f1 ++ f2)
      else .error .idxOOB
    | some (.call c args) => do
      let (ret, env1, st1, fs) ← symEvalCallS fuel prog fr env st v c args 0
      .ok (ret, envInsert env1 v ret, st1, fs)
    | some (.constI c) =>
      .ok (constPhi c, envInsert env v (constPhi c), st, [])
    | some (.fieldAddr x) => do
      let (xx, env1, st1, f1) ← frameGetS fuel prog fr env st x
      if xx.isEmpty then .ok ([], env1, st1, f1)
      else
        let (st2, ret, reps) := fieldAddrEdgesS st1 fr.tr v xx
        .ok (ret, envInsert env1 v ret, st2, f1 ++ reps)
    | some .global => .ok ([], env, st, [])
    | some .param =>
      match fr.args with
      | none => .ok ([], env, st, [])
      | some args =>
        match fr.fn.params.findIdx? (fun p => p == v) with
        | none => .ok ([], envInsert env v [], st, [])
        | some i =>
          match args[i]? with
          | none => .error .idxOOB
          | some a => do
            let (ret, env1, st1, f1) ← frameGetS fuel prog fr env st a
            .ok (ret, envInsert env1 v ret, st1, f1)
    | some (.unop op x) => do
      let (xx, env1, st1, f1) ← frameGetS fuel prog fr env st x
      if xx.isEmpty then .ok ([], env1, st1, f1)
      else
        match op with
        | .deref =>
          let (st2, ret, reps) := unOpEdgesS st1 fr.tr v xx
          .ok (ret, envInsert env1 v ret, st2, f1 ++ reps)
        | .otherUnOp => .ok ([], env1, st1, f1)
    | some (.ifTerm _ _ _) | some (.jump _) | some .panicTerm
    | some (.retTerm _) | some .other | none =>
      .ok ([], envInsert env v [], st, [])

termination_by structural fuel => fuel

/-- `frame.symEvalCall` over the slice-faithful trace model. -/
def symEvalCallS : Nat → Program → SFrame → Env → Store → Nat → Callee → List Nat →
    Nat → Except Panic (Phi × Env × Store × List GoSlice)
  | 0, _, _, _, _, _, _, _, _ => .error .noFuel
  | fuel + 1, prog, fr, env, st, callId, c, args, res =>
    match c with
    | .invoke => .ok ([], env, st, [])
    | .function f => symEvalFuncS fuel prog fr env st (some callId) f (some args) res
    | .closure f bindings =>
      symEvalFuncS fuel prog fr env st (some callId) f (some bindings) res
    | .dynamic fv => symEvalS fuel prog fr env st fv

termination_by structural fuel => fuel

/-- `frame.symEvalFunc` over the slice-faithful trace model: the call push
`tr = append(fr.tr, call)` is a real slice append, writing the parent
trace's backing array in place when it has spare capacity. -/
def symEvalFuncS : Nat → Program → SFrame → Env → Store → Option Nat → Nat →
    Option (List Nat) → Nat → Except Panic (Phi × Env × Store × List GoSlice)
  | 0, _, _, _, _, _, _, _, _ => .error .noFuel
  | fuel + 1, prog, fr, env, st, call, f, args, res =>
    match prog.funcs[f]? with
    | none => .ok ([], env, st, [])
    | some fn =>
      match fn.blocks.head? with
      | none => .ok ([], env, st, [])
      | some entry => do
        let p := match call with
          | some cid => sliceAppend st fr.tr cid
          | none => (st, fr.tr)
        let (ret, _, st2, fs) ← symEvalBlockS fuel prog ⟨fn, args, p.2⟩ [] p.1 entry res
        .ok (ret, env, st2, fs)

termination_by structural fuel => fuel

/-- Successor recursion over the slice-faithful trace model. -/
def evalSuccessorS : Nat → Program → SFrame → Env → Store → Nat → Nat →
    Except Panic (Phi × Env × Store × List GoSlice)
  | 0, _, _, _, _, _, _ => .error .noFuel
  | fuel + 1, prog, fr, env, st, bidx, res =>
    match fr.fn.blocks[bidx]? with
    | some bb => symEvalBlockS fuel prog fr env st bb res
    | none => .ok ([], env, st, [])

termination_by structural fuel => fuel

/-- Instruction walk over the slice-faithful trace model. -/
def walkInstrsS : Nat → Program → SFrame → Env → Store → List Nat →
    Except Panic (Env × Store × List GoSlice)
  | 0, _, _, _, _, _ => .error .noFuel
  | _ + 1, _, _, env, st, [] => .ok (env, st, [])
  | fuel + 1, prog, fr, env, st, id :: rest =>
    match prog.vals[id]? with
    | some (.fieldAddr _) => do
      let (_, env1, st1, f1) ← symEvalS fuel prog fr env st id
      let (env2, st2, f2) ← walkInstrsS fuel prog fr env1 st1 rest
      .ok (env2, st2, f1 ++ f2)
    | some (.call c args) =>
      match c with
      | .function f => do
        let (_, env1, st1, f1) ← symEvalFuncS fuel prog fr env st (some id) f (some args) 0
        let (env2, st2, f2) ← walkInstrsS fuel prog fr env1 st1 rest
        .ok (env2, st2, f1 ++ f2)
      | .closure f bindings => do
        let (_, env1, st1, f1) ←
          symEvalFuncS fuel prog fr env st (some id) f (some bindings) 0
        let (env2, st2, f2) ← walkInstrsS fuel prog fr env1 st1 rest
        .ok (env2, st2, f1 ++ f2)
      | _ => walkInstrsS fuel prog fr env st rest
    | _ => walkInstrsS fuel prog fr env st rest

termination_by structural fuel => fuel

/-- `frame.symEvalBlock` over the slice-faithful trace model. -/
def symEvalBlockS : Nat → Program → SFrame → Env → Store → Block → Nat →
    Except Panic (Phi × Env × Store × List GoSlice)
  | 0, _, _, _, _, _, _ => .error .noFuel
  | fuel + 1, prog, fr, env, st, b, res =>
    match b.instrs.getLast? with
    | none => .ok ([], env, st, [])
    | some tid => do
      let (env1, st1, fs1) ← walkInstrsS fuel prog fr env st b.instrs
      match prog.vals[tid]? with
      | some (.ifTerm c tbr fbr) => do
        let (cond, env2, st2, fs2) ← symEvalS fuel prog fr env1 st1 c
        if cond.isEmpty then .ok ([], env2, st2, fs1 ++ fs2)
        else
          let tru := cond.any (fun x => !x.zero)
          let fals := cond.any (fun x => x.zero)
          do
            let (r1, env3, st3, fs3) ←
              if tru then evalSuccessorS fuel prog fr env2 st2 tbr res
              else .ok ([], env2, st2, [])
            let (r2, env4, st4, fs4) ←
              if fals then evalSuccessorS fuel prog fr env3 st3 fbr res
              else .ok ([], env3, st3, [])
            .ok (r1 ++ r2, env4, st4, fs1 ++ fs2 ++ fs3 ++ fs4)
      | some (.jump t) => do
        let (r, env2, st2, fs2) ← evalSuccessorS fuel prog fr env1 st1 t res
        .ok (r, env2, st2, fs1 ++ fs2)
      | some .panicTerm => .ok ([], env1, st1, fs1)
      | some (.retTerm results) =>
        match results with
        | [] => .ok ([], env1, st1, fs1)
        | _ =>
          match results[res]? with
          | some rid => do
            let (r, env2, st2, fs2) ← symEvalS fuel prog fr env1 st1 rid
            .ok (r, env2, st2, fs1 ++ fs2)
          | none => .error .idxOOB
      | _ => .error .unreachableTerm

termination_by structural fuel => fuel

end

/-- The context-free seed frame with the nil trace slice. -/
def seedFrameS : SFrame := ⟨⟨[], []⟩, none, ⟨0, 0, 0⟩⟩

/-- The driver loop over the slice-faithful trace model, threading the
store of backing arrays; the sink accumulates slice views. -/
def checkRunS (fuel : Nat) (prog : Program) (st : Store) :
    List Nat → Except Panic (Store × List GoSlice)
  | [] => .ok (st, [])
  | f :: rest => do
    let (_, _, st1, fs) ← symEvalFuncS fuel prog seedFrameS [] st none f none 0
    let (st2, rest') ← checkRunS fuel prog st1 rest
    .ok (st2, fs ++ rest')

/-- A slice-faithful driver run over a given seed order, with the stored
trace slices resolved against the final store — the contents `main`'s
printing loop observes after `check` returns. -/
def checkRunSResolved (fuel : Nat) (prog : Program) (order : List Nat) :
    Except Panic (List Trace) :=
  match checkRunS fuel prog [] order with
  | .ok (st, slices) => .ok (slices.map (readSlice st))
  | .error e => .error e

/-- `check` over the slice-faithful model with the canonical order. -/
def analyzeS (fuel : Nat) (prog : Program) : Except Panic (List Trace) :=
  checkRunSResolved fuel prog (List.range prog.funcs.length)

instance : DecidableEq (Store × List GoSlice) := inferInstance

instance : DecidableEq (Env × Store × List GoSlice) := inferInstance

instance : DecidableEq (Phi × Env × Store × List GoSlice) := inferInstance

instance : DecidableEq (Except Panic (Phi × Env × Store × List GoSlice)) := exceptDecEq

instance : DecidableEq (Except Panic (Env × Store × List GoSlice)) := exceptDecEq

instance : DecidableEq (Except Panic (Store × List GoSlice)) := exceptDecEq

/-! ## Spec-side definitions

These definitions follow the words of the specification (not the code);
they exist to be compared against the code-derived definitions above. -/

/-- Modelled from the spec: "`isZero` is true iff the allocated type's
underlying representation is itself a reference-like composite that starts
uninitialized (channel, map, slice)". -/
def refLike : GoType → Bool
  | .chanT => true
  | .mapT _ => true
  | .sliceT => true
  | _ => false

/-- Modelled from the spec's field-address rule: report for each known-zero
base alternative; a base alternative that is not known-zero contributes a
zero-field edge always plus a non-zero-field edge unless the base
alternative certainly pointed at a zero value. -/
def fieldAddrSpecEdges (tr : Trace) (vid : Nat) (xx : Phi) : Phi × List Trace :=
  (xx.flatMap (fun x =>
      if x.zero then []
      else ⟨false, true⟩ :: (if x.toZero then [] else [⟨false, false⟩])),
   (xx.filter (fun x => x.zero)).map (fun _ => tr ++ [vid]))

/-- The amended description of the `token.MUL` unary-dereference rule: each
known-zero operand alternative reports; a non-known-zero alternative
contributes one zero-flagged edge plus, when its `toZero` flag is unset, a
second zero-flagged edge. -/
def unOpSpecEdges (tr : Trace) (vid : Nat) (xx : Phi) : Phi × List Trace :=
  (xx.flatMap (fun x =>
      if x.zero then []
      else ⟨true, false⟩ :: (if x.toZero then [] else [⟨true, false⟩])),
   (xx.filter (fun x => x.zero)).map (fun _ => tr ++ [vid]))

/-- A block whose terminator (last instruction) is one of the four shapes
the frontend guarantees: conditional branch, jump, panic, or return. -/
def goodBlock (prog : Program) (b : Block) : Bool :=
  match b.instrs.getLast? with
  | none => true
  | some tid =>
    match prog.vals[tid]? with
    | some (.ifTerm _ _ _) => true
    | some (.jump _) => true
    | some .panicTerm => true
    | some (.retTerm _) => true
    | _ => false

def goodFunc (prog : Program) (fn : Func) : Bool :=
  fn.blocks.all (goodBlock prog)

/-- The frontend's CFG well-formedness precondition of claim C9. -/
def goodProg (prog : Program) : Bool :=
  prog.funcs.all (goodFunc prog)

/-- The id names a call instruction of the program. -/
def isCallId (prog : Program) (c : Nat) : Bool :=
  match prog.vals[c]? with
  | some (.call _ _) => true
  | _ => false

/-- The id names an instruction at which `frame.symEval` can report a
fault: a field-address or a pointer load. -/
def isDerefId (prog : Program) (c : Nat) : Bool :=
  match prog.vals[c]? with
  | some (.fieldAddr _) => true
  | some (.unop .deref _) => true
  | _ => false

/-- The shape claim C10 asserts of every reported trace: non-empty, the
last element is the faulting dereference, every earlier element is a call
instruction. -/
def TraceOK (prog : Program) (t : Trace) : Prop :=
  ∃ init lastI, t = init ++ [lastI] ∧
    (∀ c ∈ init, isCallId prog c = true) ∧ isDerefId prog lastI = true

/-- The frame invariant behind C10: the accumulated trace holds only call
instructions. -/
def TrInv (prog : Program) (fr : Frame) : Prop :=
  ∀ c ∈ fr.tr, isCallId prog c = true

/-- Every trace in the fault list of a successful evaluation step is
well-shaped. -/
abbrev FaultsOK (prog : Program) (r : Except Panic (Phi × Env × List Trace)) : Prop :=
  ∀ out, r = .ok out → ∀ t ∈ out.2.2, TraceOK prog t

/-- `FaultsOK` for the instruction-walk result shape. -/
abbrev FaultsOKW (prog : Program) (r : Except Panic (Env × List Trace)) : Prop :=
  ∀ out, r = .ok out → ∀ t ∈ out.2, TraceOK prog t

/-! ## Example programs

Instruction tables for the small Go programs the claims talk about, in the
shape the frontend lowers them to. -/

/-- `func f(ok bool) *A { if ok { return new(A) }; return nil }` together
with `func caller() { a := f(false); _ = a.X }` — a conditionally-nil
return immediately field-accessed with no guard. -/
def progCondNil : Program :=
  { vals := [
      .param,                             -- 0 : f's ok
      .ifTerm 0 1 2,                      -- 1
      .alloc .structT,                    -- 2 : new(A)
      .retTerm [2],                       -- 3
      .constI .nilC,                      -- 4
      .retTerm [4],                       -- 5
      .constI (.boolC false),             -- 6
      .call (.function 0) [6],            -- 7 : t0 = f(false)
      .fieldAddr 7,                       -- 8 : &t0.X
      .retTerm []                         -- 9
    ],
    funcs := [
      ⟨[0], [⟨[1]⟩, ⟨[2, 3]⟩, ⟨[5]⟩]⟩,
      ⟨[], [⟨[7, 8, 9]⟩]⟩
    ] }

/-- `func callee(a *A) { _ = a.X }` with `func caller() { callee(nil) }` —
the nil-argument program whose fault is detected inside the callee. -/
def progNilArg : Program :=
  { vals := [
      .param,                    -- 0
      .fieldAddr 0,              -- 1
      .retTerm [],               -- 2
      .constI .nilC,             -- 3
      .call (.function 0) [3],   -- 4
      .retTerm []                -- 5
    ],
    funcs := [
      ⟨[0], [⟨[1, 2]⟩]⟩,
      ⟨[], [⟨[4, 5]⟩]⟩
    ] }

/-- `func g() { a := new(A); _ = a.X }` — a field access through a fresh
explicit allocation. -/
def progNew : Program :=
  { vals := [.alloc .structT, .fieldAddr 0, .retTerm []],
    funcs := [⟨[], [⟨[0, 1, 2]⟩]⟩] }

/-- `func g() { _ = (*A)(nil).X }` — a field access through a nil
pointer-to-struct constant. -/
def progNilConst : Program :=
  { vals := [.constI .nilC, .fieldAddr 0, .retTerm []],
    funcs := [⟨[], [⟨[1, 2]⟩]⟩] }

/-- A function allocating a variable of map type and returning it: the
allocated type's underlying representation is reference-like. -/
def progAllocMap : Program :=
  { vals := [.alloc (.mapT .intT), .retTerm [0]],
    funcs := [⟨[], [⟨[0, 1]⟩]⟩] }

/-- `func g() { _ = *((*A)(nil)) }` — a unary pointer dereference of a nil
constant, demanded through the return. -/
def progDerefNil : Program :=
  { vals := [.constI .nilC, .unop .deref 0, .retTerm [1]],
    funcs := [⟨[], [⟨[1, 2]⟩]⟩] }

/-- A unary operator other than the pointer load, applied to a non-zero
constant. -/
def progOtherUnOp : Program :=
  { vals := [.constI (.intC 3), .unop .otherUnOp 0, .retTerm [1]],
    funcs := [⟨[], [⟨[1, 2]⟩]⟩] }

/-- `var g int; func f() int { return 1 + g }` — the left operand of the
addition evaluates to one alternative, the global load to none, so the
pairwise zip of the `ssa.BinOp` case indexes out of range. -/
def progGlobalAdd : Program :=
  { vals := [.constI (.intC 1), .global, .unop .deref 1, .binop .add 0 2, .retTerm [3]],
    funcs := [⟨[], [⟨[2, 3, 4]⟩]⟩] }

/-- The guarded callers of claim C3: `f` as in `progCondNil`; one caller
checks `a != nil` and dereferences only on the non-nil branch, the other
returns early when `a == nil` before the field access. -/
def progGuarded : Program :=
  { vals := [
      .param,                    -- 0
      .ifTerm 0 1 2,             -- 1
      .alloc .structT,           -- 2
      .retTerm [2],              -- 3
      .constI .nilC,             -- 4
      .retTerm [4],              -- 5
      .constI (.boolC false),    -- 6
      .call (.function 0) [6],   -- 7  : a := f(false)
      .constI .nilC,             -- 8
      .binop .neq 7 8,           -- 9  : a != nil
      .ifTerm 9 1 2,             -- 10
      .fieldAddr 7,              -- 11 : a.X on the non-nil branch
      .jump 2,                   -- 12
      .retTerm [],               -- 13
      .constI (.boolC false),    -- 14
      .call (.function 0) [14],  -- 15 : b := f(false)
      .constI .nilC,             -- 16
      .binop .eql 15 16,         -- 17 : b == nil
      .ifTerm 17 1 2,            -- 18
      .retTerm [],               -- 19 : early return
      .fieldAddr 15,             -- 20 : b.X after the guard
      .retTerm []                -- 21
    ],
    funcs := [
      ⟨[0], [⟨[1]⟩, ⟨[2, 3]⟩, ⟨[5]⟩]⟩,
      ⟨[], [⟨[7, 9, 10]⟩, ⟨[11, 12]⟩, ⟨[13]⟩]⟩,
      ⟨[], [⟨[15, 17, 18]⟩, ⟨[19]⟩, ⟨[20, 21]⟩]⟩
    ] }

/-- The call-depth-3 program of claim C10's trace-aliasing counterexample:
`func S() { A() }`, `func A() { B() }`, `func B() { C(nil) }`, and
`func C(p *T) { _ = p.X; _ = p.Y }`.  Seeding `S` puts `C`'s activation at
depth 3, whose trace slice has length 3 and capacity 4, so `C`'s second
report overwrites the last element of the trace its first report already
stored in the sink. -/
def progDeep : Program :=
  { vals := [
      .call (.function 1) [],    -- 0 : S calls A
      .retTerm [],               -- 1
      .call (.function 2) [],    -- 2 : A calls B
      .retTerm [],               -- 3
      .constI .nilC,             -- 4
      .call (.function 3) [4],   -- 5 : B calls C(nil)
      .retTerm [],               -- 6
      .param,                    -- 7 : C's p
      .fieldAddr 7,              -- 8 : _ = p.X
      .fieldAddr 7,              -- 9 : _ = p.Y
      .retTerm []                -- 10
    ],
    funcs := [
      ⟨[], [⟨[0, 1]⟩]⟩,
      ⟨[], [⟨[2, 3]⟩]⟩,
      ⟨[], [⟨[5, 6]⟩]⟩,
      ⟨[7], [⟨[8, 9, 10]⟩]⟩
    ] }

/-- The frame of the seed evaluation of the `!= nil`-guarded caller of
`progGuarded` (function index 1). -/
def guardFrame : Frame :=
  ⟨⟨[], [⟨[7, 9, 10]⟩, ⟨[11, 12]⟩, ⟨[13]⟩]⟩, none, []⟩

/-- The frame of the seed evaluation of the sole function of
`progGlobalAdd`. -/
def gaFrame : Frame := ⟨⟨[], [⟨[2, 3, 4]⟩]⟩, none, []⟩

/-! ## Helper lemmas -/

theorem fieldAddrEdges_eq_spec (tr : Trace) (vid : Nat) :
    ∀ xx : Phi, fieldAddrEdges tr vid xx = fieldAddrSpecEdges tr vid xx := by
  intro xx
  induction xx with
  | nil => rfl
  | cons x rest ih =>
    simp only [fieldAddrEdges, ih, fieldAddrSpecEdges, List.flatMap_cons, List.filter_cons]
    cases hz : x.zero <;> cases ht : x.toZero <;> simp [hz, ht]

theorem fieldAddrEdges_reports_iff (tr : Trace) (vid : Nat) (xx : Phi) :
    (fieldAddrEdges tr vid xx).2 ≠ [] ↔ ∃ x ∈ xx, x.zero = true := by
  rw [fieldAddrEdges_eq_spec]
  simp [fieldAddrSpecEdges, List.filter_eq_nil_iff]

theorem unOpEdges_eq_spec (tr : Trace) (vid : Nat) :
    ∀ xx : Phi, unOpEdges tr vid xx = unOpSpecEdges tr vid xx := by
  intro xx
  induction xx with
  | nil => rfl
  | cons x rest ih =>
    simp only [unOpEdges, ih, unOpSpecEdges, List.flatMap_cons, List.filter_cons]
    cases hz : x.zero <;> cases ht : x.toZero <;> simp [hz, ht]

/-! ## Claims -/

/-- C1, counterexample: in `progCondNil` the conditionally-nil result of the
call (id 7) is field-accessed (id 8) with no guard; the analysis does report
a fault, but its whole trace is `[8]` — the call instruction 7 does not
appear in it at all, let alone before the field access. -/
theorem c1_counterexample :
    analyze 32 progCondNil = .ok [[8]] ∧
    isCallId progCondNil 7 = true ∧
    isDerefId progCondNil 8 = true ∧
    (7 : Nat) ∉ ([8] : List Nat) := by decide

/-- C1, amended: the fault for an unguarded field access of a
conditionally-nil call result is reported in the caller's frame, so its
trace is the caller's accumulated call chain (empty for a driver-seeded
caller) followed by the field-access instruction only; the call instruction
appears in a trace exactly when the fault site lies inside the callee, as
in the nil-argument program, whose fault trace is the call followed by the
callee's field access. -/
theorem c1_theorem :
    analyze 32 progCondNil = .ok [[8]] ∧
    isDerefId progCondNil 8 = true ∧
    analyze 32 progNilArg = .ok [[4, 1]] ∧
    isCallId progNilArg 4 = true ∧
    isDerefId progNilArg 1 = true := by decide

/-- C2: the field-address transfer function reports exactly for the
known-zero alternatives of the base (so a fault is reported iff some base
alternative is known zero, the nil pointer-to-struct constant base being
the one-alternative known-zero case `progNilConst`); each surviving
alternative contributes a certainly-zero-field edge always plus a non-zero
edge unless the base alternative was certainly zero
(`fieldAddrSpecEdges` is the spec-side statement of that rule); and the
field access through a fresh explicit allocation in `progNew` reports
nothing. -/
theorem c2_theorem :
    (∀ (tr : Trace) (vid : Nat) (xx : Phi),
      fieldAddrEdges tr vid xx = fieldAddrSpecEdges tr vid xx) ∧
    (∀ (tr : Trace) (vid : Nat) (xx : Phi),
      (fieldAddrEdges tr vid xx).2 ≠ [] ↔ ∃ x ∈ xx, x.zero = true) ∧
    analyze 32 progNew = .ok [] ∧
    analyze 32 progNilConst = .ok [[1]] :=
  ⟨fieldAddrEdges_eq_spec, fieldAddrEdges_reports_iff, by decide, by decide⟩

/-- C4, counterexample: the unary pointer dereference is modeled, not
disabled: dereferencing the nil constant in `progDerefNil` reports a
fault. -/
theorem c4_counterexample :
    analyze 32 progDerefNil = .ok [[1]] ∧ ([[1]] : List Trace) ≠ [] := by decide

/-- C4, amended: the `token.MUL` unary dereference has a transfer function:
it reports a fault for every known-zero operand alternative and contributes
zero-flagged alternatives for the others (`unOpSpecEdges`); only unary
operators other than the pointer load are disabled, evaluating to the
absent abstract state. -/
theorem c4_theorem :
    (∀ (tr : Trace) (vid : Nat) (xx : Phi),
      unOpEdges tr vid xx = unOpSpecEdges tr vid xx) ∧
    (∀ (fuel : Nat) (prog : Program) (fr : Frame) (env : Env) (v x : Nat) out,
      prog.vals[v]? = some (.unop .otherUnOp x) →
      symEval (fuel + 1) prog fr env v = .ok out → out.1 = []) := by
  refine ⟨unOpEdges_eq_spec, ?_⟩
  intro fuel prog fr env v x out hv h
  simp only [symEval, hv] at h
  cases hg : frameGet fuel prog fr env x with
  | error e => rw [hg] at h; exact absurd h (by simp [Bind.bind, Except.bind])
  | ok a =>
    obtain ⟨xx, env1, f1⟩ := a
    rw [hg] at h
    simp only [Bind.bind, Except.bind] at h
    by_cases hxx : xx.isEmpty <;>
      simp [hxx] at h <;> rw [← h]

/-- C4, witness: the second component applied to the concrete program
`progOtherUnOp`. -/
theorem c4_witness :
    (([] : Phi), ([(0, [(⟨false, false⟩ : Value)])] : Env), ([] : List Trace)).1 = [] :=
  c4_theorem.2 4 progOtherUnOp seedFrame [] 1 0 _ rfl (by decide)

/-- C5, counterexample: allocating a variable whose type is a map — a
reference-like composite, `refLike` — still yields the alternative
`⟨false, true⟩`, whose zero flag is false, not true as the claim
predicts. -/
theorem c5_counterexample :
    symEval 16 progAllocMap seedFrame [] 0 =
      .ok ([⟨false, true⟩], [(0, [⟨false, true⟩])], []) ∧
    refLike (GoType.mapT .intT) = true ∧
    (⟨false, true⟩ : Value).zero ≠ refLike (GoType.mapT .intT) := by decide

/-- C5, amended: every allocation instruction evaluates to the single
alternative `⟨false, true⟩` — never zero, certainly pointing at a zero
value — regardless of the allocated type. -/
theorem c5_theorem :
    ∀ (fuel : Nat) (prog : Program) (fr : Frame) (env : Env) (v : Nat) (t : GoType),
      prog.vals[v]? = some (.alloc t) →
      symEval (fuel + 1) prog fr env v =
        .ok ([⟨false, true⟩], envInsert env v [⟨false, true⟩], []) := by
  intro fuel prog fr env v t hv
  simp [symEval, hv]

/-- C5, witness: the amended rule at the map-type allocation of
`progAllocMap`. -/
theorem c5_witness :
    symEval 16 progAllocMap seedFrame [] 0 =
      .ok ([⟨false, true⟩], envInsert [] 0 [⟨false, true⟩], []) :=
  c5_theorem 15 progAllocMap seedFrame [] 0 (.mapT .intT) rfl

/-- C6: for `==`, `<=`, `>=`, `!=` one definite boolean alternative is
produced exactly when at least one operand alternative is certainly zero
(both zero, or one zero and one non-zero), and both boolean alternatives
exactly when both operands are uncertain; `<` and `>` always contribute
both alternatives. -/
theorem c6_theorem : ∀ xz xt yz yt : Bool,
    (((binOpPair .eql ⟨xz, xt⟩ ⟨yz, yt⟩).length = 1) ↔ (xz = true ∨ yz = true)) ∧
    (((binOpPair .leq ⟨xz, xt⟩ ⟨yz, yt⟩).length = 1) ↔ (xz = true ∨ yz = true)) ∧
    (((binOpPair .geq ⟨xz, xt⟩ ⟨yz, yt⟩).length = 1) ↔ (xz = true ∨ yz = true)) ∧
    (((binOpPair .neq ⟨xz, xt⟩ ⟨yz, yt⟩).length = 1) ↔ (xz = true ∨ yz = true)) ∧
    ((binOpPair .eql ⟨xz, xt⟩ ⟨yz, yt⟩ = [⟨false, false⟩, ⟨true, false⟩]) ↔
      (xz = false ∧ yz = false)) ∧
    ((binOpPair .leq ⟨xz, xt⟩ ⟨yz, yt⟩ = [⟨false, false⟩, ⟨true, false⟩]) ↔
      (xz = false ∧ yz = false)) ∧
    ((binOpPair .geq ⟨xz, xt⟩ ⟨yz, yt⟩ = [⟨false, false⟩, ⟨true, false⟩]) ↔
      (xz = false ∧ yz = false)) ∧
    ((binOpPair .neq ⟨xz, xt⟩ ⟨yz, yt⟩ = [⟨false, false⟩, ⟨true, false⟩]) ↔
      (xz = false ∧ yz = false)) ∧
    binOpPair .lss ⟨xz, xt⟩ ⟨yz, yt⟩ = [⟨false, false⟩, ⟨true, false⟩] ∧
    binOpPair .gtr ⟨xz, xt⟩ ⟨yz, yt⟩ = [⟨false, false⟩, ⟨true, false⟩] := by decide

theorem ok_bind {α β : Type} (a : α) (f : α → Except Panic β) :
    (Except.ok a >>= f) = f a := rfl

theorem error_bind {α β : Type} (e : Panic) (f : α → Except Panic β) :
    ((Except.error e : Except Panic α) >>= f) = .error e := rfl

/-- C3: at a conditional terminator the condition's abstract state decides
everything: an absent state yields no information (while keeping the faults
already reported), otherwise the true successor is explored iff some
alternative is non-zero and the false successor iff some alternative is
zero, concatenating the results when both apply; and consequently the
guarded callers of `progGuarded` (non-nil branch only, or early return on
nil) produce no fault at all. -/
theorem c3_theorem :
    (∀ (fuel : Nat) (prog : Program) (fr : Frame) (env : Env) (b : Block) (res : Nat)
       (pre : List Nat) (tid c tbr fbr : Nat),
      b.instrs = pre ++ [tid] →
      prog.vals[tid]? = some (.ifTerm c tbr fbr) →
      symEvalBlock (fuel + 1) prog fr env b res = (do
        let (env1, fs1) ← walkInstrs fuel prog fr env b.instrs
        let (cond, env2, fs2) ← symEval fuel prog fr env1 c
        if cond = [] then .ok ([], env2, fs1 ++ fs2)
        else do
          let (r1, env3, fs3) ←
            if ∃ x ∈ cond, x.zero = false then evalSuccessor fuel prog fr env2 tbr res
            else .ok ([], env2, [])
          let (r2, env4, fs4) ←
            if ∃ x ∈ cond, x.zero = true then evalSuccessor fuel prog fr env3 fbr res
            else .ok ([], env3, [])
          .ok (r1 ++ r2, env4, fs1 ++ fs2 ++ fs3 ++ fs4))) ∧
    analyze 32 progGuarded = .ok [] := by
  constructor
  · intro fuel prog fr env b res pre tid c tbr fbr hb hv
    have hlast : b.instrs.getLast? = some tid := by
      rw [hb, List.getLast?_append_cons]
      rfl
    simp only [symEvalBlock, hlast, hv]
    cases hw : walkInstrs fuel prog fr env b.instrs with
    | error e => simp only [error_bind]
    | ok p =>
      obtain ⟨env1, fs1⟩ := p
      simp only [ok_bind]
      cases hs : symEval fuel prog fr env1 c with
      | error e => simp only [error_bind]
      | ok q =>
        obtain ⟨cond, env2, fs2⟩ := q
        simp only [ok_bind]
        cases cond with
        | nil => simp
        | cons x xs =>
          have hne : ¬((x :: xs : Phi) = []) := by simp
          rw [if_neg hne]
          simp only [List.isEmpty_cons, Bool.false_eq_true, if_false]
          have ht : (((x :: xs).any fun v => !v.zero) = true) =
              (∃ v ∈ x :: xs, v.zero = false) := propext (by simp [List.any_eq_true])
          have hf : (((x :: xs).any fun v => v.zero) = true) =
              (∃ v ∈ x :: xs, v.zero = true) := propext (by simp [List.any_eq_true])
          simp only [ht, hf]
  · decide

/-- C3, witness: the dispatch equation instantiated at the entry block of
the `!= nil`-guarded caller of `progGuarded`. -/
theorem c3_witness :
    symEvalBlock 21 progGuarded guardFrame [] ⟨[7, 9, 10]⟩ 0 = (do
      let (env1, fs1) ← walkInstrs 20 progGuarded guardFrame [] ([7, 9, 10] : List Nat)
      let (cond, env2, fs2) ← symEval 20 progGuarded guardFrame env1 9
      if cond = [] then .ok ([], env2, fs1 ++ fs2)
      else do
        let (r1, env3, fs3) ←
          if ∃ x ∈ cond, x.zero = false then evalSuccessor 20 progGuarded guardFrame env2 1 0
          else .ok ([], env2, [])
        let (r2, env4, fs4) ←
          if ∃ x ∈ cond, x.zero = true then evalSuccessor 20 progGuarded guardFrame env3 2 0
          else .ok ([], env3, [])
        .ok (r1 ++ r2, env4, fs1 ++ fs2 ++ fs3 ++ fs4)) :=
  c3_theorem.1 20 progGuarded guardFrame [] ⟨[7, 9, 10]⟩ 0 [7, 9] 10 9 1 2 rfl rfl

theorem checkRun_ok_flatMap (fuel : Nat) (prog : Program) :
    ∀ (l : List Nat) (F : List Trace), checkRun fuel prog l = .ok F →
      F = l.flatMap (seedFaults fuel prog) := by
  intro l
  induction l with
  | nil =>
    intro F h
    simp only [checkRun] at h
    injection h with h
    rw [← h]
    rfl
  | cons f rest ih =>
    intro F h
    simp only [checkRun] at h
    cases hs : symEvalFunc fuel prog seedFrame [] none f none 0 with
    | error e =>
      rw [hs] at h
      exact absurd h (by simp [Bind.bind, Except.bind])
    | ok out =>
      rw [hs] at h
      obtain ⟨a, b, fs⟩ := out
      simp only [Bind.bind, Except.bind] at h
      cases hr : checkRun fuel prog rest with
      | error e =>
        rw [hr] at h
        exact absurd h (by simp)
      | ok R =>
        rw [hr] at h
        injection h with h
        have hseed : seedFaults fuel prog f = fs := by
          simp [seedFaults, hs]
        rw [List.flatMap_cons, hseed, ← h, ih R hr]

theorem perm_flatMap_right {α β : Type} {l₁ l₂ : List α} (f : α → List β)
    (p : l₁.Perm l₂) : (l₁.flatMap f).Perm (l₂.flatMap f) := by
  induction p with
  | nil => exact .refl _
  | cons x _ ih =>
    simp only [List.flatMap_cons]
    exact ih.append_left _
  | swap x y l =>
    simp only [List.flatMap_cons, ← List.append_assoc]
    exact (List.perm_append_comm).append_right _
  | trans _ _ ih1 ih2 => exact ih1.trans ih2

/-- C8: the driver visits the reachable functions in whatever order the map
iteration produces; two completed runs over the same program, whatever
their orders, produce the same multiset of traces — the same set of fault
signatures, with duplicates consistent between the runs. -/
theorem c8_theorem :
    ∀ (fuel : Nat) (prog : Program) (l₁ l₂ : List Nat) (F₁ F₂ : List Trace),
      l₁.Perm l₂ → checkRun fuel prog l₁ = .ok F₁ → checkRun fuel prog l₂ = .ok F₂ →
      F₁.Perm F₂ := by
  intro fuel prog l₁ l₂ F₁ F₂ hp h1 h2
  rw [checkRun_ok_flatMap fuel prog l₁ F₁ h1, checkRun_ok_flatMap fuel prog l₂ F₂ h2]
  exact perm_flatMap_right _ hp

/-- C8, witness: the two seed orders of the nil-argument program. -/
theorem c8_witness : ([[4, 1]] : List Trace).Perm [[4, 1]] :=
  c8_theorem 32 progNilArg [0, 1] [1, 0] [[4, 1]] [[4, 1]]
    (by decide) (by decide) (by decide)

theorem bind_ne_unreach {α β : Type} {e : Except Panic α} {f : α → Except Panic β}
    (he : e ≠ .error .unreachableTerm) (hf : ∀ a, f a ≠ .error .unreachableTerm) :
    (e >>= f) ≠ .error .unreachableTerm := by
  cases e with
  | error err =>
    intro hc
    rw [error_bind] at hc
    injection hc with h
    exact he (by rw [h])
  | ok a => simpa only [ok_bind] using hf a

theorem goodFunc_of_getElem? {prog : Program} {f : Nat} {fn : Func}
    (hp : goodProg prog = true) (hm : prog.funcs[f]? = some fn) :
    goodFunc prog fn = true :=
  List.all_eq_true.mp hp fn (List.getElem?_mem hm)

theorem goodBlock_of_mem {prog : Program} {fn : Func} {b : Block}
    (hf : goodFunc prog fn = true) (hm : b ∈ fn.blocks) :
    goodBlock prog b = true :=
  List.all_eq_true.mp hf b hm

/-- In a well-formed program no evaluation path can reach the
`panic("unreachable")` of the terminator switch; any failure is one of the
other panics (or fuel exhaustion, an artifact of the embedding). -/
theorem noUnreachAux : ∀ fuel : Nat,
    (∀ (prog : Program) (fr : Frame) (env : Env) (v : Nat), goodProg prog = true →
      frameGet fuel prog fr env v ≠ .error .unreachableTerm) ∧
    (∀ (prog : Program) (fr : Frame) (env : Env) (v : Nat), goodProg prog = true →
      symEval fuel prog fr env v ≠ .error .unreachableTerm) ∧
    (∀ (prog : Program) (fr : Frame) (env : Env) (cid : Nat) (c : Callee)
       (args : List Nat) (res : Nat), goodProg prog = true →
      symEvalCall fuel prog fr env cid c args res ≠ .error .unreachableTerm) ∧
    (∀ (prog : Program) (fr : Frame) (env : Env) (call : Option Nat) (f : Nat)
       (args : Option (List Nat)) (res : Nat), goodProg prog = true →
      symEvalFunc fuel prog fr env call f args res ≠ .error .unreachableTerm) ∧
    (∀ (prog : Program) (fr : Frame) (env : Env) (bidx res : Nat),
      goodProg prog = true → goodFunc prog fr.fn = true →
      evalSuccessor fuel prog fr env bidx res ≠ .error .unreachableTerm) ∧
    (∀ (prog : Program) (fr : Frame) (env : Env) (ids : List Nat),
      goodProg prog = true →
      walkInstrs fuel prog fr env ids ≠ .error .unreachableTerm) ∧
    (∀ (prog : Program) (fr : Frame) (env : Env) (b : Block) (res : Nat),
      goodProg prog = true → goodFunc prog fr.fn = true → goodBlock prog b = true →
      symEvalBlock fuel prog fr env b res ≠ .error .unreachableTerm) := by
  intro fuel
  induction fuel with
  | zero =>
    refine ⟨?_, ?_, ?_, ?_, ?_, ?_, ?_⟩ <;> intros <;>
      simp [frameGet, symEval, symEvalCall, symEvalFunc, evalSuccessor, walkInstrs,
        symEvalBlock]
  | succ fuel ih =>
    obtain ⟨ihG, ihE, ihC, ihF, ihS, ihW, ihB⟩ := ih
    have compG : ∀ prog fr env v, goodProg prog = true →
        frameGet (fuel + 1) prog fr env v ≠ .error .unreachableTerm := by
      intro prog fr env v hp
      simp only [frameGet]
      split
      · simp
      · exact ihE prog fr env v hp
    have compE : ∀ prog fr env v, goodProg prog = true →
        symEval (fuel + 1) prog fr env v ≠ .error .unreachableTerm := by
      intro prog fr env v hp
      simp only [symEval]
      split
      · simp
      · -- binop
        refine bind_ne_unreach (ihG _ _ _ _ hp) ?_
        rintro ⟨xx, env1, f1⟩
        refine bind_ne_unreach (ihG _ _ _ _ hp) ?_
        rintro ⟨yy, env2, f2⟩
        split <;> simp
      · -- call
        refine bind_ne_unreach (ihC _ _ _ _ _ _ _ hp) ?_
        rintro ⟨ret, env1, fs⟩
        simp
      · simp
      · -- fieldAddr
        refine bind_ne_unreach (ihG _ _ _ _ hp) ?_
        rintro ⟨xx, env1, f1⟩
        split <;> simp
      · simp
      · -- param: nested matches on args, findIdx?, and the indexing
        split
        · simp
        · split
          · simp
          · split
            · simp
            · refine bind_ne_unreach (ihG _ _ _ _ hp) ?_
              rintro ⟨ret, env1, f1⟩
              simp
      · -- unop
        refine bind_ne_unreach (ihG _ _ _ _ hp) ?_
        rintro ⟨xx, env1, f1⟩
        split
        · simp
        · split <;> simp
      -- fall-through cases
      all_goals simp
    have compC : ∀ prog fr env cid c args res, goodProg prog = true →
        symEvalCall (fuel + 1) prog fr env cid c args res ≠ .error .unreachableTerm := by
      intro prog fr env cid c args res hp
      simp only [symEvalCall]
      split
      · simp
      · exact ihF _ _ _ _ _ _ _ hp
      · exact ihF _ _ _ _ _ _ _ hp
      · exact ihE _ _ _ _ hp
    have compF : ∀ prog fr env call f args res, goodProg prog = true →
        symEvalFunc (fuel + 1) prog fr env call f args res ≠ .error .unreachableTerm := by
      intro prog fr env call f args res hp
      simp only [symEvalFunc]
      split
      · simp
      · rename_i fn hfn
        split
        · simp
        · rename_i entry hentry
          refine bind_ne_unreach ?_ ?_
          · exact ihB _ _ _ _ _ hp (goodFunc_of_getElem? hp hfn)
              (goodBlock_of_mem (goodFunc_of_getElem? hp hfn)
                (List.mem_of_mem_head? hentry))
          · rintro ⟨ret, env2, fs⟩
            simp
    have compS : ∀ prog fr env bidx res, goodProg prog = true →
        goodFunc prog fr.fn = true →
        evalSuccessor (fuel + 1) prog fr env bidx res ≠ .error .unreachableTerm := by
      intro prog fr env bidx res hp hf
      simp only [evalSuccessor]
      split
      · rename_i bb hbb
        exact ihB _ _ _ _ _ hp hf (goodBlock_of_mem hf (List.getElem?_mem hbb))
      · simp
    have compW : ∀ prog fr env ids, goodProg prog = true →
        walkInstrs (fuel + 1) prog fr env ids ≠ .error .unreachableTerm := by
      intro prog fr env ids hp
      induction ids with
      | nil => simp [walkInstrs]
      | cons id rest ihrest =>
        simp only [walkInstrs]
        split
        · -- fieldAddr
          refine bind_ne_unreach (ihE _ _ _ _ hp) ?_
          rintro ⟨r, env1, f1⟩
          refine bind_ne_unreach (ihW _ _ _ _ hp) ?_
          rintro ⟨env2, f2⟩
          simp
        · -- call
          split
          · refine bind_ne_unreach (ihF _ _ _ _ _ _ _ hp) ?_
            rintro ⟨r, env1, f1⟩
            refine bind_ne_unreach (ihW _ _ _ _ hp) ?_
            rintro ⟨env2, f2⟩
            simp
          · refine bind_ne_unreach (ihF _ _ _ _ _ _ _ hp) ?_
            rintro ⟨r, env1, f1⟩
            refine bind_ne_unreach (ihW _ _ _ _ hp) ?_
            rintro ⟨env2, f2⟩
            simp
          · exact ihW _ _ _ _ hp
        · exact ihW _ _ _ _ hp
    have compB : ∀ prog fr env b res, goodProg prog = true →
        goodFunc prog fr.fn = true → goodBlock prog b = true →
        symEvalBlock (fuel + 1) prog fr env b res ≠ .error .unreachableTerm := by
      intro prog fr env b res hp hf hb
      simp only [symEvalBlock]
      split
      · simp
      · rename_i tid hlast
        refine bind_ne_unreach (ihW _ _ _ _ hp) ?_
        rintro ⟨env1, fs1⟩
        split
        · -- ifTerm
          refine bind_ne_unreach (ihE _ _ _ _ hp) ?_
          rintro ⟨cond, env2, fs2⟩
          split
          · simp
          · split
            · -- true successor explored
              refine bind_ne_unreach (ihS _ _ _ _ _ hp hf) ?_
              rintro ⟨r1, env3, fs3⟩
              split
              · refine bind_ne_unreach (ihS _ _ _ _ _ hp hf) ?_
                rintro ⟨r2, env4, fs4⟩
                simp
              · simp [ok_bind]
            · -- true successor skipped
              rw [ok_bind]
              split
              · refine bind_ne_unreach (ihS _ _ _ _ _ hp hf) ?_
                rintro ⟨r2, env4, fs4⟩
                simp
              · simp [ok_bind]
        · -- jump
          refine bind_ne_unreach (ihS _ _ _ _ _ hp hf) ?_
          rintro ⟨r, env2, fs2⟩
          simp
        · simp
        · -- retTerm: empty result list, demanded slot, or out of range
          split
          · simp
          · split
            · refine bind_ne_unreach (ihE _ _ _ _ hp) ?_
              rintro ⟨r, env2, fs2⟩
              simp
            · simp
        · -- unrecognized terminator: excluded by goodBlock
          exfalso
          clear ihG ihE ihC ihF ihS ihW ihB compG compE compC compF compS compW
          rw [goodBlock, hlast] at hb
          split at hb <;> simp_all
    exact ⟨compG, compE, compC, compF, compS, compW, compB⟩

theorem exceptCases {α β : Type} {e : Except Panic α} {f : α → Except Panic β}
    {P : β → Prop} (hf : ∀ a, e = .ok a → ∀ out, f a = .ok out → P out) :
    ∀ out, (e >>= f) = .ok out → P out := by
  intro out hout
  cases e with
  | error err => rw [error_bind] at hout; cases hout
  | ok a => rw [ok_bind] at hout; exact hf a rfl out hout

theorem okCases {β : Type} {a : β} {P : β → Prop} (h : P a) :
    ∀ out, (Except.ok a : Except Panic β) = .ok out → P out := by
  intro out hout
  cases hout
  exact h

theorem errCases {β : Type} {e : Panic} {P : β → Prop} :
    ∀ out, (Except.error e : Except Panic β) = .ok out → P out := by
  intro out hout
  cases hout

theorem fieldAddrEdges_snd (tr : Trace) (vid : Nat) (xx : Phi) :
    ∀ t ∈ (fieldAddrEdges tr vid xx).2, t = tr ++ [vid] := by
  rw [fieldAddrEdges_eq_spec]
  intro t ht
  rcases List.mem_map.mp ht with ⟨a, _, h⟩
  exact h.symm

theorem unOpEdges_snd (tr : Trace) (vid : Nat) (xx : Phi) :
    ∀ t ∈ (unOpEdges tr vid xx).2, t = tr ++ [vid] := by
  rw [unOpEdges_eq_spec]
  intro t ht
  rcases List.mem_map.mp ht with ⟨a, _, h⟩
  exact h.symm

theorem traceOK_report {prog : Program} {fr : Frame} {v : Nat}
    (htr : TrInv prog fr) (hd : isDerefId prog v = true) :
    TraceOK prog (fr.tr ++ [v]) := ⟨fr.tr, v, rfl, htr, hd⟩

theorem mem_append4 {α : Type} {t : α} {a b c d : List α}
    (ht : t ∈ a ++ b ++ c ++ d) : t ∈ a ∨ t ∈ b ∨ t ∈ c ∨ t ∈ d := by
  rcases List.mem_append.mp ht with h | h
  · rcases List.mem_append.mp h with h | h
    · rcases List.mem_append.mp h with h | h
      · exact .inl h
      · exact .inr (.inl h)
    · exact .inr (.inr (.inl h))
  · exact .inr (.inr (.inr h))

/-- Every fault a successful evaluation step returns has a well-shaped
trace, provided the frame's accumulated trace holds only call
instructions. -/
theorem traceAux : ∀ fuel : Nat,
    (∀ (prog : Program) (fr : Frame) (env : Env) (v : Nat), TrInv prog fr →
      FaultsOK prog (frameGet fuel prog fr env v)) ∧
    (∀ (prog : Program) (fr : Frame) (env : Env) (v : Nat), TrInv prog fr →
      FaultsOK prog (symEval fuel prog fr env v)) ∧
    (∀ (prog : Program) (fr : Frame) (env : Env) (cid : Nat) (c : Callee)
       (args : List Nat) (res : Nat), TrInv prog fr → isCallId prog cid = true →
      FaultsOK prog (symEvalCall fuel prog fr env cid c args res)) ∧
    (∀ (prog : Program) (fr : Frame) (env : Env) (call : Option Nat) (f : Nat)
       (args : Option (List Nat)) (res : Nat), TrInv prog fr →
      (∀ cid, call = some cid → isCallId prog cid = true) →
      FaultsOK prog (symEvalFunc fuel prog fr env call f args res)) ∧
    (∀ (prog : Program) (fr : Frame) (env : Env) (bidx res : Nat), TrInv prog fr →
      FaultsOK prog (evalSuccessor fuel prog fr env bidx res)) ∧
    (∀ (prog : Program) (fr : Frame) (env : Env) (ids : List Nat), TrInv prog fr →
      FaultsOKW prog (walkInstrs fuel prog fr env ids)) ∧
    (∀ (prog : Program) (fr : Frame) (env : Env) (b : Block) (res : Nat), TrInv prog fr →
      FaultsOK prog (symEvalBlock fuel prog fr env b res)) := by
  intro fuel
  induction fuel with
  | zero =>
    exact ⟨fun _ _ _ _ _ => errCases, fun _ _ _ _ _ => errCases,
      fun _ _ _ _ _ _ _ _ _ => errCases, fun _ _ _ _ _ _ _ _ _ => errCases,
      fun _ _ _ _ _ _ => errCases, fun _ _ _ _ _ => errCases,
      fun _ _ _ _ _ _ => errCases⟩
  | succ fuel ih =>
    obtain ⟨ihG, ihE, ihC, ihF, ihS, ihW, ihB⟩ := ih
    have compG : ∀ prog fr env v, TrInv prog fr →
        FaultsOK prog (frameGet (fuel + 1) prog fr env v) := by
      intro prog fr env v htr
      simp only [frameGet]
      split
      · exact okCases (by simp)
      · exact ihE _ _ _ _ htr
    have compE : ∀ prog fr env v, TrInv prog fr →
        FaultsOK prog (symEval (fuel + 1) prog fr env v) := by
      intro prog fr env v htr
      simp only [symEval]
      split
      · -- alloc
        exact okCases (by simp)
      · -- binop
        refine exceptCases ?_
        rintro ⟨xx, env1, f1⟩ hg1
        refine exceptCases ?_
        rintro ⟨yy, env2, f2⟩ hg2
        split
        · refine okCases ?_
          intro t ht
          rcases List.mem_append.mp ht with h | h
          · exact ihG _ _ _ _ htr _ hg1 t h
          · exact ihG _ _ _ _ htr _ hg2 t h
        · exact errCases
      · -- call
        rename_i c args heq
        refine exceptCases ?_
        rintro ⟨ret, env1, fs⟩ hc
        refine okCases ?_
        intro t ht
        exact ihC _ _ _ _ _ _ _ htr (by simp [isCallId, heq]) _ hc t ht
      · -- const
        exact okCases (by simp)
      · -- fieldAddr
        rename_i x heq
        refine exceptCases ?_
        rintro ⟨xx, env1, f1⟩ hg1
        split
        · refine okCases ?_
          intro t ht
          exact ihG _ _ _ _ htr _ hg1 t ht
        · refine okCases ?_
          intro t ht
          rcases List.mem_append.mp ht with h | h
          · exact ihG _ _ _ _ htr _ hg1 t h
          · rw [fieldAddrEdges_snd fr.tr v xx t h]
            exact traceOK_report htr (by simp [isDerefId, heq])
      · -- global
        exact okCases (by simp)
      · -- param
        split
        · exact okCases (by simp)
        · split
          · exact okCases (by simp)
          · split
            · exact errCases
            · refine exceptCases ?_
              rintro ⟨ret, env1, f1⟩ hg1
              refine okCases ?_
              intro t ht
              exact ihG _ _ _ _ htr _ hg1 t ht
      · -- unop
        rename_i op x heq
        refine exceptCases ?_
        rintro ⟨xx, env1, f1⟩ hg1
        split
        · refine okCases ?_
          intro t ht
          exact ihG _ _ _ _ htr _ hg1 t ht
        · split
          · refine okCases ?_
            intro t ht
            rcases List.mem_append.mp ht with h | h
            · exact ihG _ _ _ _ htr _ hg1 t h
            · rw [unOpEdges_snd fr.tr v xx t h]
              exact traceOK_report htr (by simp [isDerefId, heq])
          · refine okCases ?_
            intro t ht
            exact ihG _ _ _ _ htr _ hg1 t ht
      all_goals exact okCases (by simp)
    have compC : ∀ prog fr env cid c args res, TrInv prog fr →
        isCallId prog cid = true →
        FaultsOK prog (symEvalCall (fuel + 1) prog fr env cid c args res) := by
      intro prog fr env cid c args res htr hcid
      simp only [symEvalCall]
      split
      · exact okCases (by simp)
      · exact ihF _ _ _ _ _ _ _ htr (fun c' h => by cases h; exact hcid)
      · exact ihF _ _ _ _ _ _ _ htr (fun c' h => by cases h; exact hcid)
      · exact ihE _ _ _ _ htr
    have compF : ∀ prog fr env call f args res, TrInv prog fr →
        (∀ cid, call = some cid → isCallId prog cid = true) →
        FaultsOK prog (symEvalFunc (fuel + 1) prog fr env call f args res) := by
      intro prog fr env call f args res htr hcall
      cases call with
      | none =>
        simp only [symEvalFunc]
        split
        · exact okCases (by simp)
        · rename_i fn hfn
          split
          · exact okCases (by simp)
          · rename_i entry hentry
            refine exceptCases ?_
            rintro ⟨ret, envx, fs⟩ hsb
            refine okCases ?_
            intro t ht
            refine ihB _ _ _ _ _ ?_ _ hsb t ht
            exact htr
      | some cid =>
        simp only [symEvalFunc]
        split
        · exact okCases (by simp)
        · rename_i fn hfn
          split
          · exact okCases (by simp)
          · rename_i entry hentry
            refine exceptCases ?_
            rintro ⟨ret, envx, fs⟩ hsb
            refine okCases ?_
            intro t ht
            refine ihB _ _ _ _ _ ?_ _ hsb t ht
            intro cc hcc
            rcases List.mem_append.mp hcc with h | h
            · exact htr cc h
            · simp at h
              rw [h]
              exact hcall cid rfl
    have compS : ∀ prog fr env bidx res, TrInv prog fr →
        FaultsOK prog (evalSuccessor (fuel + 1) prog fr env bidx res) := by
      intro prog fr env bidx res htr
      simp only [evalSuccessor]
      split
      · exact ihB _ _ _ _ _ htr
      · exact okCases (by simp)
    have compW : ∀ prog fr env ids, TrInv prog fr →
        FaultsOKW prog (walkInstrs (fuel + 1) prog fr env ids) := by
      intro prog fr env ids htr
      cases ids with
      | nil => exact okCases (by simp)
      | cons id rest =>
        simp only [walkInstrs]
        split
        · -- fieldAddr
          refine exceptCases ?_
          rintro ⟨rv, env1, f1⟩ hse
          refine exceptCases ?_
          rintro ⟨env2, f2⟩ hw
          refine okCases ?_
          intro t ht
          rcases List.mem_append.mp ht with h | h
          · exact ihE _ _ _ _ htr _ hse t h
          · exact ihW _ _ _ _ htr _ hw t h
        · -- call with a statically known function or closure
          rename_i c args heq
          split
          · refine exceptCases ?_
            rintro ⟨rv, env1, f1⟩ hsf
            refine exceptCases ?_
            rintro ⟨env2, f2⟩ hw
            refine okCases ?_
            intro t ht
            rcases List.mem_append.mp ht with h | h
            · refine ihF _ _ _ _ _ _ _ htr ?_ _ hsf t h
              intro cid hcid
              cases hcid
              simp [isCallId, heq]
            · exact ihW _ _ _ _ htr _ hw t h
          · refine exceptCases ?_
            rintro ⟨rv, env1, f1⟩ hsf
            refine exceptCases ?_
            rintro ⟨env2, f2⟩ hw
            refine okCases ?_
            intro t ht
            rcases List.mem_append.mp ht with h | h
            · refine ihF _ _ _ _ _ _ _ htr ?_ _ hsf t h
              intro cid hcid
              cases hcid
              simp [isCallId, heq]
            · exact ihW _ _ _ _ htr _ hw t h
          · exact ihW _ _ _ _ htr
        · exact ihW _ _ _ _ htr
    have compB : ∀ prog fr env b res, TrInv prog fr →
        FaultsOK prog (symEvalBlock (fuel + 1) prog fr env b res) := by
      intro prog fr env b res htr
      simp only [symEvalBlock]
      split
      · exact okCases (by simp)
      · rename_i tid hlast
        refine exceptCases ?_
        rintro ⟨env1, fs1⟩ hw
        split
        · -- ifTerm
          refine exceptCases ?_
          rintro ⟨cond, env2, fs2⟩ hse
          split
          · refine okCases ?_
            intro t ht
            rcases List.mem_append.mp ht with h | h
            · exact ihW _ _ _ _ htr _ hw t h
            · exact ihE _ _ _ _ htr _ hse t h
          · split
            · -- true successor explored
              refine exceptCases ?_
              rintro ⟨r1, env3, fs3⟩ hs1
              split
              · refine exceptCases ?_
                rintro ⟨r2, env4, fs4⟩ hs2
                refine okCases ?_
                intro t ht
                rcases mem_append4 ht with h | h | h | h
                · exact ihW _ _ _ _ htr _ hw t h
                · exact ihE _ _ _ _ htr _ hse t h
                · exact ihS _ _ _ _ _ htr _ hs1 t h
                · exact ihS _ _ _ _ _ htr _ hs2 t h
              · rw [ok_bind]
                refine okCases ?_
                intro t ht
                rcases mem_append4 ht with h | h | h | h
                · exact ihW _ _ _ _ htr _ hw t h
                · exact ihE _ _ _ _ htr _ hse t h
                · exact ihS _ _ _ _ _ htr _ hs1 t h
                · simp at h
            · -- true successor skipped
              rw [ok_bind]
              split
              · refine exceptCases ?_
                rintro ⟨r2, env4, fs4⟩ hs2
                refine okCases ?_
                intro t ht
                rcases mem_append4 ht with h | h | h | h
                · exact ihW _ _ _ _ htr _ hw t h
                · exact ihE _ _ _ _ htr _ hse t h
                · simp at h
                · exact ihS _ _ _ _ _ htr _ hs2 t h
              · rw [ok_bind]
                refine okCases ?_
                intro t ht
                rcases mem_append4 ht with h | h | h | h
                · exact ihW _ _ _ _ htr _ hw t h
                · exact ihE _ _ _ _ htr _ hse t h
                · simp at h
                · simp at h
        · -- jump
          refine exceptCases ?_
          rintro ⟨r, env2, fs2⟩ hsj
          refine okCases ?_
          intro t ht
          rcases List.mem_append.mp ht with h | h
          · exact ihW _ _ _ _ htr _ hw t h
          · exact ihS _ _ _ _ _ htr _ hsj t h
        · -- panicTerm
          refine okCases ?_
          intro t ht
          exact ihW _ _ _ _ htr _ hw t ht
        · -- retTerm
          split
          · refine okCases ?_
            intro t ht
            exact ihW _ _ _ _ htr _ hw t ht
          · split
            · refine exceptCases ?_
              rintro ⟨r, env2, fs2⟩ hsr
              refine okCases ?_
              intro t ht
              rcases List.mem_append.mp ht with h | h
              · exact ihW _ _ _ _ htr _ hw t h
              · exact ihE _ _ _ _ htr _ hsr t h
            · exact errCases
        · -- unrecognized terminator
          exact errCases
    exact ⟨compG, compE, compC, compF, compS, compW, compB⟩

/-- C10, counterexample: stored traces are mutated after being appended.
In `progDeep`, seeding `S` reports two faults from `C`'s depth-3 frame: at
report time the traces are `[0, 2, 5, 8]` and `[0, 2, 5, 9]` (the ideal
model), but `C`'s trace slice has length 3 and capacity 4, so the second
report overwrites the last element of the first stored trace in place: the
slice-faithful model resolves both sink entries to `[0, 2, 5, 9]`, and the
trace appended for the fault at instruction 8 no longer ends at 8. -/
theorem c10_counterexample :
    checkRun 20 progDeep [0] = .ok [[0, 2, 5, 8], [0, 2, 5, 9]] ∧
    checkRunSResolved 20 progDeep [0] = .ok [[0, 2, 5, 9], [0, 2, 5, 9]] ∧
    isDerefId progDeep 8 = true ∧ isDerefId progDeep 9 = true ∧
    isCallId progDeep 0 = true ∧ isCallId progDeep 2 = true ∧
    isCallId progDeep 5 = true ∧
    ([0, 2, 5, 9] : List Nat) ≠ [0, 2, 5, 8] := by decide

/-- C10, amended: at the moment it is appended, every reported trace is the
reporting activation's call chain followed by the faulting instruction —
non-empty, all earlier elements call instructions (`TraceOK`) — and the
chain is built by appending each nested activation's call instruction at
the end of its parent's chain, outermost activation first; the result list
itself only grows during a pass (entries are never removed, later seeds
only append).  Stored traces are not immutable, though: the sink shares
each trace's backing array with the frame it was reported from, so a later
append from a frame whose trace slice has spare capacity overwrites the
last element of a trace already in the sink (first possible at activation
depth 3); where no spare capacity arises the final contents coincide with
the report-time contents, as in the nil-argument program. -/
theorem c10_theorem :
    (∀ (fuel : Nat) (prog : Program) (order : List Nat) (F : List Trace),
      checkRun fuel prog order = .ok F → ∀ t ∈ F, TraceOK prog t) ∧
    (∀ (fuel : Nat) (prog : Program) (fr : Frame) (env : Env) (cid f res : Nat)
       (args : Option (List Nat)) (fn : Func) (entry : Block),
      prog.funcs[f]? = some fn → fn.blocks.head? = some entry →
      symEvalFunc (fuel + 1) prog fr env (some cid) f args res = (do
        let (ret, _, fs) ← symEvalBlock fuel prog ⟨fn, args, fr.tr ++ [cid]⟩ [] entry res
        .ok (ret, env, fs))) ∧
    (∀ (fuel : Nat) (prog : Program) (l₁ l₂ : List Nat) (st : Store),
      checkRunS fuel prog st (l₁ ++ l₂) = (do
        let (st1, F₁) ← checkRunS fuel prog st l₁
        let (st2, F₂) ← checkRunS fuel prog st1 l₂
        .ok (st2, F₁ ++ F₂))) ∧
    checkRunSResolved 32 progNilArg [0, 1] = .ok [[4, 1]] := by
  refine ⟨?_, ?_, ?_, by decide⟩
  · intro fuel prog order
    induction order with
    | nil =>
      intro F h t ht
      simp only [checkRun] at h
      injection h with h
      rw [← h] at ht
      simp at ht
    | cons f rest ihr =>
      intro F h t ht
      simp only [checkRun] at h
      cases hs : symEvalFunc fuel prog seedFrame [] none f none 0 with
      | error e =>
        rw [hs] at h
        exact absurd h (by simp [Bind.bind, Except.bind])
      | ok out =>
        rw [hs] at h
        obtain ⟨a, b, fs⟩ := out
        simp only [Bind.bind, Except.bind] at h
        cases hr : checkRun fuel prog rest with
        | error e =>
          rw [hr] at h
          exact absurd h (by simp)
        | ok R =>
          rw [hr] at h
          injection h with h
          rw [← h] at ht
          rcases List.mem_append.mp ht with hm | hm
          · exact (traceAux fuel).2.2.2.1 prog seedFrame [] none f none 0
              (fun c hc => by simp [seedFrame] at hc)
              (fun cid hcid => by cases hcid)
              _ hs t hm
          · exact ihr R hr t hm
  · intro fuel prog fr env cid f res args fn entry h1 h2
    simp only [symEvalFunc, h1, h2]
  · intro fuel prog l₁ l₂
    induction l₁ with
    | nil =>
      intro st
      rw [show (([] : List Nat) ++ l₂) = l₂ from rfl]
      rw [show (checkRunS fuel prog st [] : Except Panic (Store × List GoSlice)) =
        .ok (st, []) from rfl]
      rw [ok_bind]
      dsimp only
      cases h : checkRunS fuel prog st l₂ with
      | error e => rw [error_bind]
      | ok p =>
        obtain ⟨st2, R⟩ := p
        rw [ok_bind]
        simp
    | cons f rest ihl =>
      intro st
      simp only [List.cons_append, checkRunS, List.append_eq]
      cases hs : symEvalFuncS fuel prog seedFrameS [] st none f none 0 with
      | error e => simp only [error_bind]
      | ok out =>
        obtain ⟨a, b, st1, fs⟩ := out
        simp only [ok_bind]
        rw [ihl st1]
        cases h1 : checkRunS fuel prog st1 rest with
        | error e => simp only [error_bind]
        | ok p =>
          obtain ⟨st2, R₁⟩ := p
          simp only [ok_bind]
          cases h2 : checkRunS fuel prog st2 l₂ with
          | error e => simp only [error_bind]
          | ok q =>
            obtain ⟨st3, R₂⟩ := q
            simp only [ok_bind]
            rw [List.append_assoc]

/-- C10, witness: the nil-argument program: its single trace `[4, 1]` is
well-shaped, and the callee activation's trace is the seed's empty chain
with the call instruction 4 appended. -/
theorem c10_witness :
    TraceOK progNilArg [4, 1] ∧
    symEvalFunc 31 progNilArg seedFrame [] (some 4) 0 (some [3]) 0 = (do
      let (ret, _, fs) ←
        symEvalBlock 30 progNilArg ⟨⟨[0], [⟨[1, 2]⟩]⟩, some [3], [] ++ [4]⟩ [] ⟨[1, 2]⟩ 0
      .ok (ret, [], fs)) :=
  ⟨c10_theorem.1 32 progNilArg [0, 1] [[4, 1]] (by decide) [4, 1] (by simp),
    c10_theorem.2.1 30 progNilArg seedFrame [] 4 0 0 (some [3])
      ⟨[0], [⟨[1, 2]⟩]⟩ ⟨[1, 2]⟩ rfl rfl⟩

/-- C9, counterexample: block evaluation is not total.  Every terminator of
`progGlobalAdd` is one of the four recognized kinds (`goodProg` holds), yet
evaluating its entry block dies with the index-out-of-range panic of the
binary-operand zip. -/
theorem c9_counterexample :
    goodProg progGlobalAdd = true ∧
    symEvalBlock 20 progGlobalAdd gaFrame [] ⟨[2, 3, 4]⟩ 0 = .error .idxOOB := by
  decide

/-- C9, amended: under the frontend precondition — every non-empty block of
every function ends in a conditional branch, jump, abnormal termination, or
return — block evaluation never reaches the invariant-violation branch (the
`panic("unreachable")` of the terminator switch); it is not total, though,
since the binary-operand zip can still panic. -/
theorem c9_theorem :
    ∀ (fuel : Nat) (prog : Program) (fr : Frame) (env : Env) (b : Block) (res : Nat),
      goodProg prog = true → goodFunc prog fr.fn = true → goodBlock prog b = true →
      symEvalBlock fuel prog fr env b res ≠ .error .unreachableTerm :=
  fun fuel => (noUnreachAux fuel).2.2.2.2.2.2

/-- C9, witness: the amended theorem at the entry block of the guarded
caller of `progGuarded`. -/
theorem c9_witness :
    symEvalBlock 20 progGuarded guardFrame [] ⟨[7, 9, 10]⟩ 0 ≠ .error .unreachableTerm :=
  c9_theorem 20 progGuarded guardFrame [] ⟨[7, 9, 10]⟩ 0
    (by decide) (by decide) (by decide)

/-- C7: the pairwise zip of the `ssa.BinOp` case is not safe: in
`progGlobalAdd` (`return 1 + g` for a global `g`) the left operand
evaluates to one alternative, the right operand (a load of a global) to
none, and the whole analysis dies with the index-out-of-range panic. -/
theorem c7_theorem :
    symEval 16 progGlobalAdd gaFrame [] 0 = .ok ([⟨false, false⟩], [(0, [⟨false, false⟩])], []) ∧
    symEval 16 progGlobalAdd gaFrame [] 2 = .ok ([], [], []) ∧
    analyze 32 progGlobalAdd = .error .idxOOB := by decide

end Gonil
